import Mathlib

/-!
# Verification of the photo-archive correlation bot (`bot.py`)

Shallow embedding of the correlation engine of `bot.py`.  The bot keeps, per
conversation key `(chat_id, message_thread_id)`, a FIFO queue of pending photo
batches (`PhotoGroup`) and matches them against incoming archive documents.

All state operations of the source touch only the queue of the event's own key
(`self.groups[self._key(message)]`), so the embedding models the store as the
per-key view: `Option (List PhotoGroup)`, where `none` means the key is absent
from `self.groups` and `some q` means the key is registered with queue `q`.
Python falsiness of `self.groups.get(key)` identifies `none` and `some []`,
which the embedding spells out at each use site exactly as the source does.

Timestamps (`datetime.utcnow()`) and the TTL (`timedelta`) are modelled as
integers; the source only ever subtracts and compares them
(`now - created_at > PHOTO_TTL`).  Module-level configuration (`OWNER_ID`,
`PHOTO_TTL`, `DELETE_ORIGINAL_PHOTO`, `DELETE_ARCHIVE`) is gathered in a
`Config` record.  Transport calls (`send_photo`, `send_media_group`,
`delete_message`) are modelled as emitted `BotAction` values; the
`try/except Exception: pass` around each `delete_message` is modelled by an
explicit failure oracle `fails : Int → Bool` whose verdict the handler
swallows, exactly as the bare `except` does.
-/

/-- One pending photo batch (`PhotoGroup` dataclass in `bot.py`):
`media_group_id`, `file_ids`, `message_ids`, `created_at`. -/
structure PhotoGroup where
  media_group_id : Option String
  file_ids : List String
  message_ids : List Int
  created_at : Int
deriving DecidableEq, Repr

/-- A key's pending queue, oldest batch first (`self.groups[key]`). -/
abbrev Queue := List PhotoGroup

/-- The per-key view of `self.groups`: `none` = key absent, `some q` = key
registered with queue `q`. -/
abbrev Store := Option Queue

/-- Static module-level configuration of `bot.py` (`OWNER_ID`, `PHOTO_TTL`,
`DELETE_ORIGINAL_PHOTO`, `DELETE_ARCHIVE`). -/
structure Config where
  owner_id : Option Int
  photo_ttl : Int
  delete_original_photo : Bool
  delete_archive : Bool
deriving DecidableEq, Repr

/-- `ALLOWED_EXTENSIONS` of `bot.py`. -/
def ALLOWED_EXTENSIONS : List String :=
  ["zip", "rar", "7z", "stl", "obj", "3mf", "step", "stp", "3ds", "fbx"]

/-- A photo message relevant to `_handle_photo`: sender (if any), media group
id (if any), the file id of the largest size (`message.photo[-1].file_id`)
and the message id. -/
structure PhotoEvent where
  from_user : Option Int
  media_group_id : Option String
  file_id : String
  message_id : Int
deriving DecidableEq, Repr

/-- A document message relevant to `_handle_document`: sender (if any), the
document's file name (`none` when the document or its name is missing) and
the message id. -/
structure DocumentEvent where
  from_user : Option Int
  file_name : Option String
  message_id : Int
deriving DecidableEq, Repr

/-- Transport calls the handlers emit, in emission order.  `sendMediaGroup`
carries `(file_id, caption)` pairs mirroring the `InputMediaPhoto` list. -/
inductive BotAction where
  | sendPhoto (file_id : String) (caption : String)
  | sendMediaGroup (media : List (String × Option String))
  | deleteMessage (message_id : Int)
deriving DecidableEq, Repr

/-- `PhotoArchiveBot._skip_user`: skip unless no owner is configured or the
sender is the owner; a missing sender is skipped whenever an owner is set. -/
def skip_user (owner : Option Int) (sender : Option Int) : Bool :=
  match owner with
  | none => false
  | some o =>
    match sender with
    | none => true
    | some u => decide (u ≠ o)

/-- `(now - queue[0].created_at) > PHOTO_TTL`: the loop condition of
`PhotoArchiveBot._cleanup`. -/
def expired (now ttl : Int) (g : PhotoGroup) : Bool :=
  decide (now - g.created_at > ttl)

/-- `PhotoArchiveBot._cleanup`: return early when `self.groups.get(key)` is
falsy (absent key or empty queue); otherwise pop expired batches from the
front and deregister the key if the queue becomes empty. -/
def cleanup (ttl now : Int) (s : Store) : Store :=
  match s with
  | none => none
  | some q =>
    if q = [] then some []
    else
      let q2 := q.dropWhile (expired now ttl)
      if q2 = [] then none else some q2

/-- Truthiness of `media_group_id` in `if media_group_id and ...`:
`None` and the empty string are falsy. -/
def truthy (o : Option String) : Bool :=
  match o with
  | none => false
  | some s => decide (s ≠ "")

/-- The guard of the append-vs-new-batch branch in `_handle_photo`:
`media_group_id and queue and queue[-1].media_group_id == media_group_id`. -/
def canExtendTail (gid : Option String) (q : Queue) : Bool :=
  truthy gid &&
    match q.getLast? with
    | none => false
    | some t => decide (t.media_group_id = gid)

/-- `group.file_ids.append(file_id); group.message_ids.append(message_id)`
applied to the tail batch (`queue[-1]`). -/
def extendLast (fid : String) (mid : Int) : Queue → Queue
  | [] => []
  | [t] => [⟨t.media_group_id, t.file_ids ++ [fid], t.message_ids ++ [mid],
             t.created_at⟩]
  | g :: rest => g :: extendLast fid mid rest

/-- The queue mutation of `_handle_photo` (lines 88-100): extend the tail
batch when the guard holds, otherwise append a fresh one-photo batch. -/
def appendPhoto (gid : Option String) (fid : String) (mid now : Int)
    (q : Queue) : Queue :=
  if canExtendTail gid q then extendLast fid mid q
  else q ++ [⟨gid, [fid], [mid], now⟩]

/-- `PhotoArchiveBot._handle_photo`: skip unauthorized senders, get or create
the key's queue (`self._queue`), append the photo, then `_cleanup`. -/
def handle_photo (cfg : Config) (e : PhotoEvent) (now : Int) (s : Store) :
    Store :=
  if skip_user cfg.owner_id e.from_user then s
  else
    let q := s.getD []
    cleanup cfg.photo_ttl now
      (some (appendPhoto e.media_group_id e.file_id e.message_id now q))

/-- `filename.rsplit(".", 1)[-1]` on the character list: the suffix after the
last dot, or the whole list when it contains no dot. -/
def afterLastDot : List Char → List Char
  | [] => []
  | c :: rest =>
    if rest.contains '.' then afterLastDot rest
    else if c = '.' then rest
    else c :: rest

/-- `filename.rsplit(".", 1)[-1].lower()`. -/
def extOf (filename : String) : String :=
  ⟨(afterLastDot filename.data).map Char.toLower⟩

/-- The ordering guard of `_handle_document` (line 128):
`group.message_ids and group.message_ids[-1] >= message.message_id`. -/
def orderingBlocked (g : PhotoGroup) (docMid : Int) : Bool :=
  match g.message_ids.getLast? with
  | none => false
  | some last => decide (last ≥ docMid)

/-- The `InputMediaPhoto` list: one item per file id, then
`media[0].caption = filename` puts the caption on the first item only. -/
def mediaWithCaption (fids : List String) (cap : String) :
    List (String × Option String) :=
  match fids with
  | [] => []
  | f :: rest => (f, some cap) :: rest.map (fun g => (g, none))

/-- The repost of the dequeued batch (lines 133-149): a single photo with the
file name as caption when the batch has exactly one photo, otherwise a media
group with the caption on the first item. -/
def repostActions (filename : String) (g : PhotoGroup) : List BotAction :=
  match g.file_ids with
  | [fid] => [BotAction.sendPhoto fid filename]
  | fids => [BotAction.sendMediaGroup (mediaWithCaption fids filename)]

/-- One `try: await self.bot.delete_message(...) except Exception: pass`.
The attempt is always emitted; a transport failure (`fails mid`) raises an
exception that the bare `except` swallows, so the outcome is indistinguishable
from success. -/
def tryDeleteMessage (fails : Int → Bool) (mid : Int) : List BotAction :=
  match fails mid with
  | true => [BotAction.deleteMessage mid]
  | false => [BotAction.deleteMessage mid]

/-- The `for mid in group.message_ids` delete loop (lines 152-156): every
deletion is attempted; a failure of one never stops the loop. -/
def deleteAll (fails : Int → Bool) : List Int → List BotAction
  | [] => []
  | mid :: rest => tryDeleteMessage fails mid ++ deleteAll fails rest

/-- `PhotoArchiveBot._handle_document`, returning the resulting per-key store
together with the emitted transport actions in order. -/
def handle_document (cfg : Config) (fails : Int → Bool) (e : DocumentEvent)
    (now : Int) (s : Store) : Store × List BotAction :=
  if skip_user cfg.owner_id e.from_user then (s, [])
  else
    match e.file_name with
    | none => (s, [])
    | some filename =>
      if filename = "" then (s, [])
      else if extOf filename ∈ ALLOWED_EXTENSIONS then
        match s with
        | none => (s, [])
        | some q0 =>
          if q0 = [] then (s, [])
          else
            match cleanup cfg.photo_ttl now (some q0) with
            | none => (none, [])
            | some [] => (some [], [])
            | some (g :: rest) =>
              if orderingBlocked g e.message_id then (some (g :: rest), [])
              else
                (if rest = [] then none else some rest,
                 repostActions filename g
                   ++ (if cfg.delete_original_photo then
                         deleteAll fails g.message_ids else [])
                   ++ (if cfg.delete_archive then
                         tryDeleteMessage fails e.message_id else []))
      else (s, [])

/-! ## Helper lemmas -/

/-- The head surviving a `dropWhile` does not satisfy the predicate. -/
lemma dropWhile_head_false {α} (p : α → Bool) (l : List α) (a : α) (t : List α)
    (h : l.dropWhile p = a :: t) : p a = false := by
  induction l with
  | nil => simp [List.dropWhile] at h
  | cons x xs ih =>
    by_cases hp : p x = true
    · rw [List.dropWhile_cons_of_pos hp] at h
      exact ih h
    · rw [List.dropWhile_cons_of_neg hp] at h
      cases h
      simpa using hp

/-- A swallowed delete attempt is one emitted `deleteMessage`, whatever the
transport outcome. -/
lemma tryDelete_eq (fails : Int → Bool) (mid : Int) :
    tryDeleteMessage fails mid = [BotAction.deleteMessage mid] := by
  unfold tryDeleteMessage
  cases fails mid <;> rfl

/-- The delete loop attempts every source message id, in order, independently
of which attempts fail. -/
lemma deleteAll_eq_map (fails : Int → Bool) (mids : List Int) :
    deleteAll fails mids = mids.map BotAction.deleteMessage := by
  induction mids with
  | nil => rfl
  | cons m ms ih => simp [deleteAll, tryDelete_eq, ih]

/-- `extendLast` rewrites the final element and keeps the prefix. -/
lemma extendLast_concat (fid : String) (mid : Int) (ys : Queue)
    (t : PhotoGroup) :
    extendLast fid mid (ys ++ [t]) =
      ys ++ [⟨t.media_group_id, t.file_ids ++ [fid],
              t.message_ids ++ [mid], t.created_at⟩] := by
  induction ys with
  | nil => rfl
  | cons a ys2 ih =>
    obtain ⟨b, l2, hbl⟩ : ∃ b l2, ys2 ++ [t] = b :: l2 := by
      cases h : ys2 ++ [t] with
      | nil => simp at h
      | cons b l2 => exact ⟨b, l2, rfl⟩
    have hstep : extendLast fid mid (a :: (ys2 ++ [t])) =
        a :: extendLast fid mid (ys2 ++ [t]) := by
      rw [hbl]
      rfl
    rw [List.cons_append, hstep, ih, List.cons_append]

/-- Without a dot, `rsplit(".", 1)[-1]` returns the whole name. -/
lemma afterLastDot_no_dot (cs : List Char) (h : cs.contains '.' = false) :
    afterLastDot cs = cs := by
  induction cs with
  | nil => rfl
  | cons c rest ih =>
    rw [List.contains_cons, Bool.or_eq_false_iff] at h
    obtain ⟨hc, hrest⟩ := h
    unfold afterLastDot
    rw [hrest]
    have : ¬ c = '.' := by
      intro hcc
      subst hcc
      simp at hc
    simp [this]

/-- With a dot, `rsplit(".", 1)[-1]` returns the suffix after the last one. -/
lemma afterLastDot_append (as bs : List Char) (h : bs.contains '.' = false) :
    afterLastDot (as ++ '.' :: bs) = bs := by
  induction as with
  | nil =>
    rw [List.nil_append]
    simp [afterLastDot, h]
    intro hmem
    have hc := List.elem_eq_true_of_mem hmem
    rw [show bs.contains '.' = List.elem '.' bs from rfl, hc] at h
    cases h
  | cons a as2 ih =>
    obtain ⟨b, l2, hbl⟩ : ∃ b l2, as2 ++ '.' :: bs = b :: l2 := by
      cases hx : as2 ++ '.' :: bs with
      | nil => simp at hx
      | cons b l2 => exact ⟨b, l2, rfl⟩
    have hdot : (as2 ++ '.' :: bs).contains '.' = true := by
      simp
    rw [List.cons_append]
    unfold afterLastDot
    rw [hbl] at hdot ⊢
    rw [hdot]
    rw [← hbl]
    exact ih

/-- Unfolding of `cleanup` on a registered, non-empty queue. -/
lemma cleanup_some (ttl now : Int) (q : Queue) (hq : q ≠ []) :
    cleanup ttl now (some q) =
      if q.dropWhile (expired now ttl) = [] then none
      else some (q.dropWhile (expired now ttl)) := by
  simp [cleanup, hq]

/-- Surviving `cleanup` means having been in the queue before it ran. -/
lemma mem_cleanup (ttl now : Int) (s : Store) (g : PhotoGroup)
    (h : g ∈ (cleanup ttl now s).getD []) : g ∈ s.getD [] := by
  cases s with
  | none => simp [cleanup] at h
  | some q =>
    by_cases hq : q = []
    · subst hq
      simp [cleanup] at h
    · rw [cleanup_some ttl now q hq] at h
      by_cases h2 : q.dropWhile (expired now ttl) = []
      · simp [h2] at h
      · rw [if_neg h2] at h
        simp only [Option.getD_some] at h
        exact (List.dropWhile_sublist (expired now ttl)).mem h

/-- In a queue whose `created_at` values are pairwise nondecreasing, every
batch is at most as recent as the last one. -/
lemma created_le_getLast (q : Queue) (t : PhotoGroup)
    (hsort : q.Pairwise (fun a b => a.created_at ≤ b.created_at))
    (hlast : q.getLast? = some t) :
    ∀ g ∈ q, g.created_at ≤ t.created_at := by
  obtain ⟨ys, rfl⟩ := List.getLast?_eq_some_iff.mp hlast
  intro g hg
  rw [List.pairwise_append] at hsort
  rcases List.mem_append.mp hg with hy | ht
  · exact hsort.2.2 g hy t (by simp)
  · simp at ht
    subst ht
    exact le_refl _

/-! ## Claim theorems -/

/-- **C8** — Eviction is idempotent: for every key state, `now` and TTL,
running `_cleanup` a second time with the same `now` and TTL removes no
additional batches and leaves the per-key store identical. -/
theorem cleanup_idempotent (ttl now : Int) (s : Store) :
    cleanup ttl now (cleanup ttl now s) = cleanup ttl now s := by
  cases s with
  | none => rfl
  | some q =>
    by_cases hq : q = []
    · subst hq
      rfl
    · rw [cleanup_some ttl now q hq]
      by_cases h2 : q.dropWhile (expired now ttl) = []
      · simp [h2, cleanup]
      · rw [if_neg h2, cleanup_some ttl now _ h2]
        cases hh : q.dropWhile (expired now ttl) with
        | nil => exact absurd hh h2
        | cons g rest =>
          have hg : expired now ttl g = false :=
            dropWhile_head_false (expired now ttl) q g rest hh
          have hne : ¬ expired now ttl g = true := by simp [hg]
          rw [List.dropWhile_cons_of_neg hne]
          simp

/-- **C6** — With an owner configured, an event is processed iff its sender
equals the owner (sender-less events are dropped); with no owner, every event
is processed.  A skipped photo or document event leaves the per-key store
unchanged and emits no action. -/
theorem authorization_filter (cfg : Config) (fails : Int → Bool)
    (pe : PhotoEvent) (de : DocumentEvent) (now : Int) (s : Store)
    (owner sender : Option Int) :
    (skip_user owner sender = false ↔
       owner = none ∨ ∃ o, owner = some o ∧ sender = some o)
    ∧ (skip_user cfg.owner_id pe.from_user = true →
         handle_photo cfg pe now s = s)
    ∧ (skip_user cfg.owner_id de.from_user = true →
         handle_document cfg fails de now s = (s, [])) := by
  refine ⟨?_, ?_, ?_⟩
  · cases owner with
    | none => simp [skip_user]
    | some o =>
      cases sender with
      | none => simp [skip_user]
      | some u =>
        simp only [skip_user, decide_eq_false_iff_not, not_not,
          Option.some.injEq]
        constructor
        · intro h
          exact Or.inr ⟨o, rfl, h⟩
        · rintro (h | ⟨o2, ho2, hu⟩)
          · cases h
          · cases ho2
            exact hu
  · intro h
    unfold handle_photo
    rw [h]
    simp
  · intro h
    unfold handle_document
    rw [h]
    simp

/-- **C2 counterexample** — the claim "the event is rejected silently (no
state change, no action) whenever fileName has no extension" is false:
`rsplit(".", 1)[-1]` on a dot-free name returns the whole name, so a document
named exactly `zip` (no extension) passes the filter, consumes the pending
batch and triggers a repost and deletes. -/
theorem no_extension_still_matches :
    handle_document ⟨none, 600, true, true⟩ (fun _ => false)
        ⟨none, some "zip", 100⟩ 0 (some [⟨none, ["F"], [1], 0⟩])
      = (none, [BotAction.sendPhoto "F" "zip", BotAction.deleteMessage 1,
                BotAction.deleteMessage 100])
    ∧ handle_document ⟨none, 600, true, true⟩ (fun _ => false)
        ⟨none, some "zip", 100⟩ 0 (some [⟨none, ["F"], [1], 0⟩])
      ≠ (some [⟨none, ["F"], [1], 0⟩], []) := by
  constructor
  · rfl
  · decide

/-- **C2 (amended)** — the extension is the case-folded substring after the
last `.` when fileName contains a dot, and the case-folded whole fileName
otherwise; the event is rejected silently (state unchanged, no action)
whenever that computed string is not in the allow-set.  (A dot-free fileName
is therefore rejected unless the whole name, case-folded, is itself in the
set.) -/
theorem extension_filter (cfg : Config) (fails : Int → Bool)
    (e : DocumentEvent) (now : Int) (s : Store) (filename : String)
    (hname : e.file_name = some filename)
    (hext : extOf filename ∉ ALLOWED_EXTENSIONS) :
    handle_document cfg fails e now s = (s, [])
    ∧ (∀ cs : List Char, cs.contains '.' = false →
         extOf ⟨cs⟩ = ⟨cs.map Char.toLower⟩)
    ∧ (∀ as bs : List Char, bs.contains '.' = false →
         extOf ⟨as ++ '.' :: bs⟩ = ⟨bs.map Char.toLower⟩) := by
  refine ⟨?_, ?_, ?_⟩
  · by_cases hskip : skip_user cfg.owner_id e.from_user = true
    · unfold handle_document
      rw [hskip]
      simp
    · rw [Bool.not_eq_true] at hskip
      simp only [handle_document, hskip, hname, Bool.false_eq_true, if_false]
      by_cases hempty : filename = ""
      · rw [if_pos hempty]
      · rw [if_neg hempty, if_neg hext]
  · intro cs h
    unfold extOf
    rw [show (⟨cs⟩ : String).data = cs from rfl, afterLastDot_no_dot cs h]
  · intro as bs h
    unfold extOf
    rw [show (⟨as ++ '.' :: bs⟩ : String).data = as ++ '.' :: bs from rfl,
      afterLastDot_append as bs h]

/-- Witness for the amended C2: `readme.txt` with a valid pending batch is
rejected with the queue unchanged (spec Scenario D). -/
theorem extension_filter_witness :
    handle_document ⟨none, 600, true, true⟩ (fun _ => false)
        ⟨none, some "readme.txt", 100⟩ 0 (some [⟨none, ["F"], [1], 0⟩])
      = (some [⟨none, ["F"], [1], 0⟩], []) :=
  (extension_filter ⟨none, 600, true, true⟩ (fun _ => false)
    ⟨none, some "readme.txt", 100⟩ 0 (some [⟨none, ["F"], [1], 0⟩])
    "readme.txt" rfl (by decide)).1

/-- The album items are exactly the batch's file ids, in order. -/
lemma mediaWithCaption_fst (fids : List String) (cap : String) :
    (mediaWithCaption fids cap).map Prod.fst = fids := by
  cases fids with
  | nil => rfl
  | cons f r =>
    simp only [mediaWithCaption, List.map_cons, List.map_map]
    have hc : (Prod.fst ∘ fun gg => ((gg, none) : String × Option String))
        = id := rfl
    rw [hc, List.map_id]

/-- The caption sits on the first album item only. -/
lemma mediaWithCaption_snd (f : String) (r : List String) (cap : String) :
    (mediaWithCaption (f :: r) cap).map Prod.snd =
      some cap :: List.replicate r.length none := by
  simp only [mediaWithCaption, List.map_cons, List.map_map]
  have hc : (Prod.snd ∘ fun gg => ((gg, none) : String × Option String))
      = fun _ => (none : Option String) := rfl
  rw [hc, List.map_const']

/-- Unfolding of `_handle_document` along the full match path: authorized,
named, allowed extension, non-empty queue surviving eviction, ordering guard
passed. -/
lemma handle_document_match (cfg : Config) (fails : Int → Bool)
    (e : DocumentEvent) (now : Int) (q0 : Queue) (filename : String)
    (g : PhotoGroup) (rest : Queue)
    (hauth : skip_user cfg.owner_id e.from_user = false)
    (hname : e.file_name = some filename)
    (hne : filename ≠ "")
    (hext : extOf filename ∈ ALLOWED_EXTENSIONS)
    (hq0 : q0 ≠ [])
    (hcl : cleanup cfg.photo_ttl now (some q0) = some (g :: rest))
    (hord : orderingBlocked g e.message_id = false) :
    handle_document cfg fails e now (some q0) =
      (if rest = [] then none else some rest,
       repostActions filename g
         ++ (if cfg.delete_original_photo then deleteAll fails g.message_ids
             else [])
         ++ (if cfg.delete_archive then tryDeleteMessage fails e.message_id
             else [])) := by
  simp only [handle_document, hauth, hname, Bool.false_eq_true, if_false,
    if_neg hne, if_pos hext, if_neg hq0, hcl, hord]

/-- **C1** — A qualifying document consumes exactly the front batch of its
key's queue (the queue loses `g` and nothing else) and emits a repost for it
first, followed only by delete actions: a single-photo batch reposts as one
photo captioned with the file name; a multi-photo batch reposts as one album
in batch order with the caption on the first item only. -/
theorem document_match_consumes_front (cfg : Config) (fails : Int → Bool)
    (e : DocumentEvent) (now : Int) (q0 : Queue) (filename : String)
    (g : PhotoGroup) (rest : Queue)
    (hauth : skip_user cfg.owner_id e.from_user = false)
    (hname : e.file_name = some filename)
    (hne : filename ≠ "")
    (hext : extOf filename ∈ ALLOWED_EXTENSIONS)
    (hq0 : q0 ≠ [])
    (hcl : cleanup cfg.photo_ttl now (some q0) = some (g :: rest))
    (hord : orderingBlocked g e.message_id = false) :
    ∃ dels : List BotAction,
      handle_document cfg fails e now (some q0) =
        (if rest = [] then none else some rest,
         repostActions filename g ++ dels)
      ∧ (∀ a ∈ dels, ∃ m, a = BotAction.deleteMessage m)
      ∧ (∀ fid, g.file_ids = [fid] →
           repostActions filename g = [BotAction.sendPhoto fid filename])
      ∧ (1 < g.file_ids.length →
           repostActions filename g =
             [BotAction.sendMediaGroup (mediaWithCaption g.file_ids filename)]
           ∧ (mediaWithCaption g.file_ids filename).map Prod.fst = g.file_ids
           ∧ (mediaWithCaption g.file_ids filename).map Prod.snd =
               some filename ::
                 List.replicate (g.file_ids.length - 1) none) := by
  refine ⟨(if cfg.delete_original_photo then deleteAll fails g.message_ids
              else [])
            ++ (if cfg.delete_archive then
                  tryDeleteMessage fails e.message_id else []),
          ?_, ?_, ?_, ?_⟩
  · rw [handle_document_match cfg fails e now q0 filename g rest hauth hname
      hne hext hq0 hcl hord, List.append_assoc]
  · intro a ha
    rcases List.mem_append.mp ha with h1 | h2
    · by_cases hd : cfg.delete_original_photo = true
      · rw [if_pos hd, deleteAll_eq_map] at h1
        obtain ⟨m, _, hm⟩ := List.mem_map.mp h1
        exact ⟨m, hm.symm⟩
      · rw [if_neg hd] at h1
        cases h1
    · by_cases hd : cfg.delete_archive = true
      · rw [if_pos hd, tryDelete_eq] at h2
        rw [List.mem_singleton] at h2
        exact ⟨e.message_id, h2⟩
      · rw [if_neg hd] at h2
        cases h2
  · intro fid hfid
    simp [repostActions, hfid]
  · intro hlen
    obtain ⟨f1, f2, fr, hids⟩ : ∃ f1 f2 fr, g.file_ids = f1 :: f2 :: fr := by
      cases hx : g.file_ids with
      | nil => rw [hx] at hlen; simp at hlen
      | cons f1 r1 =>
        cases hr : r1 with
        | nil => rw [hx, hr] at hlen; simp at hlen
        | cons f2 fr =>
          exact ⟨f1, f2, fr, rfl⟩
    refine ⟨?_, ?_, ?_⟩
    · simp [repostActions, hids]
    · exact mediaWithCaption_fst g.file_ids filename
    · rw [hids, mediaWithCaption_snd]
      simp

/-- Witness for C1 at spec Scenario A: photos P1,P2 (group g1, messages
10,11), then `model.stl` as message 12. -/
theorem document_match_consumes_front_witness :
    ∃ dels : List BotAction,
      handle_document ⟨none, 600, true, true⟩ (fun _ => false)
          ⟨none, some "model.stl", 12⟩ 2
          (some [⟨some "g1", ["P1", "P2"], [10, 11], 0⟩]) =
        (if ([] : Queue) = [] then none else some [],
         repostActions "model.stl" ⟨some "g1", ["P1", "P2"], [10, 11], 0⟩
           ++ dels)
      ∧ (∀ a ∈ dels, ∃ m, a = BotAction.deleteMessage m)
      ∧ (∀ fid,
           (⟨some "g1", ["P1", "P2"], [10, 11], 0⟩ : PhotoGroup).file_ids
             = [fid] →
           repostActions "model.stl" ⟨some "g1", ["P1", "P2"], [10, 11], 0⟩
             = [BotAction.sendPhoto fid "model.stl"])
      ∧ (1 < (⟨some "g1", ["P1", "P2"], [10, 11], 0⟩ :
              PhotoGroup).file_ids.length →
           repostActions "model.stl" ⟨some "g1", ["P1", "P2"], [10, 11], 0⟩
             = [BotAction.sendMediaGroup
                 (mediaWithCaption ["P1", "P2"] "model.stl")]
           ∧ (mediaWithCaption ["P1", "P2"] "model.stl").map Prod.fst
               = ["P1", "P2"]
           ∧ (mediaWithCaption ["P1", "P2"] "model.stl").map Prod.snd
               = some "model.stl" :: List.replicate (2 - 1) none) :=
  document_match_consumes_front ⟨none, 600, true, true⟩ (fun _ => false)
    ⟨none, some "model.stl", 12⟩ 2 [⟨some "g1", ["P1", "P2"], [10, 11], 0⟩]
    "model.stl" ⟨some "g1", ["P1", "P2"], [10, 11], 0⟩ []
    rfl rfl (by decide) (by decide) (by decide) (by decide) (by decide)

/-- **C9** — Delete actions are best-effort and independent: the handler's
result (state and emitted attempts) is the same under every failure oracle,
so no delete failure ever aborts later attempts or escapes the handler; on a
match with both delete flags set, every source message id of the consumed
batch is attempted in order and the document message deletion is attempted
last, regardless of which attempts fail. -/
theorem best_effort_deletes (cfg : Config) (fails : Int → Bool)
    (e : DocumentEvent) (now : Int) (q0 : Queue) (filename : String)
    (g : PhotoGroup) (rest : Queue)
    (hauth : skip_user cfg.owner_id e.from_user = false)
    (hname : e.file_name = some filename)
    (hne : filename ≠ "")
    (hext : extOf filename ∈ ALLOWED_EXTENSIONS)
    (hq0 : q0 ≠ [])
    (hcl : cleanup cfg.photo_ttl now (some q0) = some (g :: rest))
    (hord : orderingBlocked g e.message_id = false)
    (hdel1 : cfg.delete_original_photo = true)
    (hdel2 : cfg.delete_archive = true) :
    (∀ (f1 f2 : Int → Bool) (s : Store),
       handle_document cfg f1 e now s = handle_document cfg f2 e now s)
    ∧ (handle_document cfg fails e now (some q0)).2 =
        repostActions filename g
          ++ g.message_ids.map BotAction.deleteMessage
          ++ [BotAction.deleteMessage e.message_id] := by
  constructor
  · intro f1 f2 s
    simp only [handle_document, deleteAll_eq_map, tryDelete_eq]
  · rw [handle_document_match cfg fails e now q0 filename g rest hauth hname
      hne hext hq0 hcl hord]
    simp only [hdel1, hdel2, if_true, deleteAll_eq_map, tryDelete_eq]

/-- Witness for C9 at spec Scenario A with an oracle that fails on every
delete: the attempts are emitted unchanged. -/
theorem best_effort_deletes_witness :
    (∀ (f1 f2 : Int → Bool) (s : Store),
       handle_document ⟨none, 600, true, true⟩ f1
           ⟨none, some "model.stl", 12⟩ 2 s
         = handle_document ⟨none, 600, true, true⟩ f2
             ⟨none, some "model.stl", 12⟩ 2 s)
    ∧ (handle_document ⟨none, 600, true, true⟩ (fun _ => true)
         ⟨none, some "model.stl", 12⟩ 2
         (some [⟨some "g1", ["P1", "P2"], [10, 11], 0⟩])).2 =
        repostActions "model.stl" ⟨some "g1", ["P1", "P2"], [10, 11], 0⟩
          ++ ([10, 11] : List Int).map BotAction.deleteMessage
          ++ [BotAction.deleteMessage 12] :=
  best_effort_deletes ⟨none, 600, true, true⟩ (fun _ => true)
    ⟨none, some "model.stl", 12⟩ 2 [⟨some "g1", ["P1", "P2"], [10, 11], 0⟩]
    "model.stl" ⟨some "g1", ["P1", "P2"], [10, 11], 0⟩ []
    rfl rfl (by decide) (by decide) (by decide) (by decide) (by decide)
    rfl rfl

/-- **C3** — A document whose message id is `<=` the last source message id
of the front batch surviving eviction never matches: no action is emitted and
the per-key queue is left exactly as the handler found it (either untouched,
when an earlier guard already rejected the event, or exactly the result of
eviction, with the front batch still at the front). -/
theorem ordering_guard_blocks (cfg : Config) (fails : Int → Bool)
    (e : DocumentEvent) (now : Int) (s : Store) (g : PhotoGroup)
    (rest : Queue) (last : Int)
    (hcl : cleanup cfg.photo_ttl now s = some (g :: rest))
    (hlast : g.message_ids.getLast? = some last)
    (hle : e.message_id ≤ last) :
    (handle_document cfg fails e now s).2 = []
    ∧ ((handle_document cfg fails e now s).1 = s ∨
       (handle_document cfg fails e now s).1 = cleanup cfg.photo_ttl now s)
    := by
  have hord : orderingBlocked g e.message_id = true := by
    unfold orderingBlocked
    rw [hlast]
    simpa using hle
  by_cases hskip : skip_user cfg.owner_id e.from_user = true
  · unfold handle_document
    rw [hskip]
    exact ⟨rfl, Or.inl rfl⟩
  · rw [Bool.not_eq_true] at hskip
    cases hfn : e.file_name with
    | none =>
      simp only [handle_document, hskip, hfn, Bool.false_eq_true, if_false]
      simp
    | some filename =>
      by_cases hempty : filename = ""
      · simp only [handle_document, hskip, hfn, Bool.false_eq_true, if_false,
          if_pos hempty]
        simp
      · by_cases hext : extOf filename ∈ ALLOWED_EXTENSIONS
        · cases s with
          | none => simp [cleanup] at hcl
          | some q0 =>
            by_cases hq0 : q0 = []
            · subst hq0
              simp [cleanup] at hcl
            · simp only [handle_document, hskip, hfn, Bool.false_eq_true,
                if_false, if_neg hempty, if_pos hext, if_neg hq0, hcl, hord,
                if_true]
              simp
        · simp only [handle_document, hskip, hfn, Bool.false_eq_true,
            if_false, if_neg hempty, if_neg hext]
          simp

/-- Witness for C3: a `part.zip` document with message id 1 against a front
batch whose last source message id is 10 is rejected; the store keeps the
batch. -/
theorem ordering_guard_blocks_witness :
    (handle_document ⟨none, 600, true, true⟩ (fun _ => false)
       ⟨none, some "part.zip", 1⟩ 0 (some [⟨none, ["F"], [10], 0⟩])).2 = []
    ∧ ((handle_document ⟨none, 600, true, true⟩ (fun _ => false)
          ⟨none, some "part.zip", 1⟩ 0
          (some [⟨none, ["F"], [10], 0⟩])).1
        = some [⟨none, ["F"], [10], 0⟩] ∨
       (handle_document ⟨none, 600, true, true⟩ (fun _ => false)
          ⟨none, some "part.zip", 1⟩ 0
          (some [⟨none, ["F"], [10], 0⟩])).1
        = cleanup 600 0 (some [⟨none, ["F"], [10], 0⟩])) :=
  ordering_guard_blocks ⟨none, 600, true, true⟩ (fun _ => false)
    ⟨none, some "part.zip", 1⟩ 0 (some [⟨none, ["F"], [10], 0⟩])
    ⟨none, ["F"], [10], 0⟩ [] 10 (by decide) rfl (by decide)

/-- **C4** — A photo extends the tail batch iff the tail exists, its group id
is non-empty and equals the event's group id; then only the tail changes
(the prefix `q.dropLast` is untouched).  In every other case a fresh
one-photo batch carrying the event's group id, file id, message id and the
current time is appended as the new tail. -/
theorem append_photo_tail (gid : Option String) (fid : String)
    (mid now : Int) (q : Queue) :
    (canExtendTail gid q = true ↔
       ∃ t m, q.getLast? = some t ∧ t.media_group_id = some m ∧ m ≠ ""
         ∧ gid = some m)
    ∧ (∀ t, q.getLast? = some t → canExtendTail gid q = true →
         appendPhoto gid fid mid now q =
           q.dropLast ++ [⟨t.media_group_id, t.file_ids ++ [fid],
                           t.message_ids ++ [mid], t.created_at⟩])
    ∧ (canExtendTail gid q = false →
         appendPhoto gid fid mid now q = q ++ [⟨gid, [fid], [mid], now⟩])
    := by
  refine ⟨?_, ?_, ?_⟩
  · cases gid with
    | none => simp [canExtendTail, truthy]
    | some m0 =>
      cases hlast : q.getLast? with
      | none => simp [canExtendTail, truthy, hlast]
      | some t =>
        simp only [canExtendTail, truthy, hlast, Bool.and_eq_true,
          decide_eq_true_eq, Option.some.injEq]
        constructor
        · rintro ⟨h1, h2⟩
          exact ⟨t, m0, rfl, h2, h1, rfl⟩
        · rintro ⟨t2, m, ht2, hmg, hm, hgm⟩
          cases ht2
          cases hgm
          exact ⟨hm, hmg⟩
  · intro t hlast hcan
    unfold appendPhoto
    rw [if_pos hcan]
    obtain ⟨ys, rfl⟩ := List.getLast?_eq_some_iff.mp hlast
    rw [extendLast_concat, List.dropLast_concat]
  · intro h
    unfold appendPhoto
    rw [if_neg]
    simp [h]

/-- Witness for C4: a same-group photo extends the single tail batch in
place. -/
theorem append_photo_tail_witness :
    appendPhoto (some "g1") "P2" 11 5 [⟨some "g1", ["P1"], [10], 0⟩] =
      ([⟨some "g1", ["P1"], [10], 0⟩] : Queue).dropLast ++
        [⟨some "g1", ["P1"] ++ ["P2"], [10] ++ [11], 0⟩] :=
  (append_photo_tail (some "g1") "P2" 11 5
      [⟨some "g1", ["P1"], [10], 0⟩]).2.1
    ⟨some "g1", ["P1"], [10], 0⟩ rfl (by decide)

/-- **C5** — `_cleanup` removes exactly the maximal front prefix of expired
batches (the removed prefix is all expired, the surviving front is not, and
prefix plus remainder is the original queue), deregistering the key when the
queue empties; it runs before the matching decision of `_handle_document`,
so the only batch ever offered for matching — the front of the post-eviction
queue — is never expired, and an eviction that empties the queue leaves the
document without any emitted action. -/
theorem eviction_spec (cfg : Config) (fails : Int → Bool) (e : DocumentEvent)
    (now ttl : Int) (q : Queue) (s : Store) (hq : q ≠ []) :
    (cleanup ttl now (some q) =
       if q.dropWhile (expired now ttl) = [] then none
       else some (q.dropWhile (expired now ttl)))
    ∧ (q.takeWhile (expired now ttl) ++ q.dropWhile (expired now ttl) = q)
    ∧ (∀ g ∈ q.takeWhile (expired now ttl), expired now ttl g = true)
    ∧ (∀ g rest2, q.dropWhile (expired now ttl) = g :: rest2 →
         expired now ttl g = false)
    ∧ (∀ g rest2, cleanup cfg.photo_ttl now s = some (g :: rest2) →
         expired now cfg.photo_ttl g = false)
    ∧ (cleanup cfg.photo_ttl now s = none →
         (handle_document cfg fails e now s).2 = []) := by
  refine ⟨cleanup_some ttl now q hq,
    List.takeWhile_append_dropWhile (expired now ttl) q,
    fun g hg => List.mem_takeWhile_imp hg,
    fun g rest2 h => dropWhile_head_false (expired now ttl) q g rest2 h,
    ?_, ?_⟩
  · intro g rest2 h
    cases s with
    | none => simp [cleanup] at h
    | some q0 =>
      by_cases hq0 : q0 = []
      · subst hq0
        simp [cleanup] at h
      · rw [cleanup_some cfg.photo_ttl now q0 hq0] at h
        by_cases h2 : q0.dropWhile (expired now cfg.photo_ttl) = []
        · rw [if_pos h2] at h
          cases h
        · rw [if_neg h2] at h
          exact dropWhile_head_false (expired now cfg.photo_ttl) q0 g rest2
            (Option.some.inj h)
  · intro hnone
    by_cases hskip : skip_user cfg.owner_id e.from_user = true
    · unfold handle_document
      rw [hskip]
      simp
    · rw [Bool.not_eq_true] at hskip
      cases hfn : e.file_name with
      | none =>
        simp only [handle_document, hskip, hfn, Bool.false_eq_true, if_false]
      | some filename =>
        by_cases hempty : filename = ""
        · simp only [handle_document, hskip, hfn, Bool.false_eq_true,
            if_false, if_pos hempty]
        · by_cases hext : extOf filename ∈ ALLOWED_EXTENSIONS
          · cases s with
            | none =>
              simp only [handle_document, hskip, hfn, Bool.false_eq_true,
                if_false, if_neg hempty, if_pos hext]
            | some q0 =>
              by_cases hq0 : q0 = []
              · simp only [handle_document, hskip, hfn, Bool.false_eq_true,
                  if_false, if_neg hempty, if_pos hext, if_pos hq0]
              · simp only [handle_document, hskip, hfn, Bool.false_eq_true,
                  if_false, if_neg hempty, if_pos hext, if_neg hq0, hnone]
          · simp only [handle_document, hskip, hfn, Bool.false_eq_true,
              if_false, if_neg hempty, if_neg hext]

/-- Witness for C5 at spec Scenario C: a batch created at t=0 with TTL 600s
is evicted when the document arrives at t=660 and nothing is emitted. -/
theorem eviction_spec_witness :
    cleanup 600 660 (some [⟨none, ["F"], [5], 0⟩]) =
      if ([⟨none, ["F"], [5], 0⟩] : Queue).dropWhile (expired 660 600) = []
      then none
      else some (([⟨none, ["F"], [5], 0⟩] : Queue).dropWhile
        (expired 660 600)) :=
  (eviction_spec ⟨none, 600, true, true⟩ (fun _ => false)
    ⟨none, some "part.zip", 6⟩ 660 600 [⟨none, ["F"], [5], 0⟩]
    (some [⟨none, ["F"], [5], 0⟩]) (by decide)).1

/-- The spec invariant on one batch:
`len(photoRefs) == len(sourceMessageIds) >= 1`. -/
def batchWf (g : PhotoGroup) : Prop :=
  g.file_ids.length = g.message_ids.length ∧ 1 ≤ g.file_ids.length

instance (g : PhotoGroup) : Decidable (batchWf g) := by
  unfold batchWf
  infer_instance

/-- `extendLast` preserves batch well-formedness. -/
lemma extendLast_wf (fid : String) (mid : Int) (q : Queue)
    (h : ∀ g ∈ q, batchWf g) : ∀ g ∈ extendLast fid mid q, batchWf g := by
  induction q with
  | nil => simp [extendLast]
  | cons a rest ih =>
    cases rest with
    | nil =>
      intro g hg
      simp only [extendLast, List.mem_singleton] at hg
      subst hg
      obtain ⟨h1, h2⟩ := h a (by simp)
      constructor
      · simp [h1]
      · simp
    | cons b r2 =>
      intro g hg
      rw [show extendLast fid mid (a :: b :: r2)
          = a :: extendLast fid mid (b :: r2) from rfl] at hg
      rcases List.mem_cons.mp hg with hga | hgr
      · subst hga
        exact h g (by simp)
      · exact ih (fun g2 hg2 => h g2 (List.mem_cons_of_mem a hg2)) g hgr

/-- `appendPhoto` preserves well-formedness of every batch in the queue. -/
lemma appendPhoto_wf (gid : Option String) (fid : String) (mid now : Int)
    (q : Queue) (h : ∀ g ∈ q, batchWf g) :
    ∀ g ∈ appendPhoto gid fid mid now q, batchWf g := by
  unfold appendPhoto
  by_cases hc : canExtendTail gid q = true
  · rw [if_pos hc]
    exact extendLast_wf fid mid q h
  · rw [if_neg hc]
    intro g hg
    rcases List.mem_append.mp hg with hq | hnew
    · exact h g hq
    · rw [List.mem_singleton] at hnew
      subst hnew
      exact ⟨rfl, le_refl 1⟩

/-- The store a document handler leaves behind is the input store, the
post-eviction store, or the post-eviction store minus its front batch. -/
lemma handle_document_store_cases (cfg : Config) (fails : Int → Bool)
    (e : DocumentEvent) (now : Int) (s : Store) :
    (handle_document cfg fails e now s).1 = s ∨
    (handle_document cfg fails e now s).1 = cleanup cfg.photo_ttl now s ∨
    (∃ g rest, cleanup cfg.photo_ttl now s = some (g :: rest) ∧
       ((handle_document cfg fails e now s).1 = some rest ∨
        (handle_document cfg fails e now s).1 = none)) := by
  by_cases hskip : skip_user cfg.owner_id e.from_user = true
  · unfold handle_document
    rw [hskip]
    simp
  · rw [Bool.not_eq_true] at hskip
    cases hfn : e.file_name with
    | none =>
      simp only [handle_document, hskip, hfn, Bool.false_eq_true, if_false]
      simp
    | some filename =>
      by_cases hempty : filename = ""
      · simp only [handle_document, hskip, hfn, Bool.false_eq_true, if_false,
          if_pos hempty]
        simp
      · by_cases hext : extOf filename ∈ ALLOWED_EXTENSIONS
        · cases s with
          | none =>
            simp only [handle_document, hskip, hfn, Bool.false_eq_true,
              if_false, if_neg hempty, if_pos hext]
            simp
          | some q0 =>
            by_cases hq0 : q0 = []
            · simp only [handle_document, hskip, hfn, Bool.false_eq_true,
                if_false, if_neg hempty, if_pos hext, if_pos hq0]
              simp
            · cases hcl : cleanup cfg.photo_ttl now (some q0) with
              | none =>
                simp only [handle_document, hskip, hfn, Bool.false_eq_true,
                  if_false, if_neg hempty, if_pos hext, if_neg hq0, hcl]
                simp
              | some q1 =>
                cases q1 with
                | nil =>
                  simp only [handle_document, hskip, hfn, Bool.false_eq_true,
                    if_false, if_neg hempty, if_pos hext, if_neg hq0, hcl]
                  simp
                | cons g rest =>
                  by_cases hord : orderingBlocked g e.message_id = true
                  · simp only [handle_document, hskip, hfn,
                      Bool.false_eq_true, if_false, if_neg hempty,
                      if_pos hext, if_neg hq0, hcl, hord, if_true]
                    simp
                  · rw [Bool.not_eq_true] at hord
                    simp only [handle_document, hskip, hfn,
                      Bool.false_eq_true, if_false, if_neg hempty,
                      if_pos hext, if_neg hq0, hcl, hord]
                    refine Or.inr (Or.inr ⟨g, rest, rfl, ?_⟩)
                    by_cases hrest : rest = []
                    · rw [if_pos hrest]
                      simp
                    · rw [if_neg hrest]
                      simp
        · simp only [handle_document, hskip, hfn, Bool.false_eq_true,
            if_false, if_neg hempty, if_neg hext]
          simp

/-- **C7** — Every stored batch satisfies
`len(photoRefs) == len(sourceMessageIds) >= 1`: creation establishes it with
one element each, extension appends one element to each sequence, and both
handlers preserve it for every batch still stored afterwards. -/
theorem batch_invariant (cfg : Config) (fails : Int → Bool)
    (pe : PhotoEvent) (de : DocumentEvent) (now : Int) (s : Store)
    (hwf : ∀ g ∈ s.getD [], batchWf g) :
    (∀ (gid : Option String) (fid : String) (mid t : Int),
       batchWf ⟨gid, [fid], [mid], t⟩)
    ∧ (∀ (g : PhotoGroup) (fid : String) (mid : Int), batchWf g →
         batchWf ⟨g.media_group_id, g.file_ids ++ [fid],
                  g.message_ids ++ [mid], g.created_at⟩)
    ∧ (∀ g ∈ (handle_photo cfg pe now s).getD [], batchWf g)
    ∧ (∀ g ∈ (handle_document cfg fails de now s).1.getD [], batchWf g)
    := by
  refine ⟨fun gid fid mid t => ⟨rfl, le_refl 1⟩, ?_, ?_, ?_⟩
  · intro g fid mid hg
    obtain ⟨h1, h2⟩ := hg
    constructor
    · simp [h1]
    · simp
  · unfold handle_photo
    by_cases hskip : skip_user cfg.owner_id pe.from_user = true
    · rw [if_pos hskip]
      exact hwf
    · rw [Bool.not_eq_true] at hskip
      rw [hskip]
      simp only [Bool.false_eq_true, if_false]
      intro g hg
      have hg2 := mem_cleanup cfg.photo_ttl now _ g hg
      simp only [Option.getD_some] at hg2
      exact appendPhoto_wf pe.media_group_id pe.file_id pe.message_id now
        (s.getD []) hwf g hg2
  · rcases handle_document_store_cases cfg fails de now s with h | h | h
    · rw [h]
      exact hwf
    · rw [h]
      intro g hg
      exact hwf g (mem_cleanup cfg.photo_ttl now s g hg)
    · obtain ⟨g0, rest, hcl, hres | hres⟩ := h
      · rw [hres]
        intro g hg
        simp only [Option.getD_some] at hg
        refine hwf g (mem_cleanup cfg.photo_ttl now s g ?_)
        rw [hcl]
        simp only [Option.getD_some]
        exact List.mem_cons_of_mem g0 hg
      · rw [hres]
        intro g hg
        simp at hg

/-- Witness for C7: the batch stored after a fresh photo is well-formed. -/
theorem batch_invariant_witness :
    batchWf ⟨none, ["F"], [1], 0⟩ :=
  (batch_invariant ⟨none, 600, true, true⟩ (fun _ => false)
      ⟨none, none, "F", 1⟩ ⟨none, some "part.zip", 2⟩ 0 none
      (by simp)).1 none "F" 1 0

/-- A batch at most as recent as an expired batch is itself expired. -/
lemma expired_of_le (now ttl : Int) (a b : PhotoGroup)
    (h : a.created_at ≤ b.created_at) (hb : expired now ttl b = true) :
    expired now ttl a = true := by
  unfold expired at hb ⊢
  rw [decide_eq_true_eq] at hb
  rw [decide_eq_true_eq]
  omega

/-- **C10** — `created_at` is never refreshed on append and `_handle_photo`
runs `_cleanup` after appending, so an authorized photo that extends a tail
batch already older than the TTL (with the queue's `created_at` values
nondecreasing, every earlier batch is then expired too) is evicted within
the same handler call: the handler returns with the key deregistered, the
just-received photo absent from the store, and — `_handle_photo` returning
only state — no action emitted. -/
theorem expired_tail_extension_evicted (cfg : Config) (e : PhotoEvent)
    (now : Int) (s : Store) (t : PhotoGroup)
    (hauth : skip_user cfg.owner_id e.from_user = false)
    (hsort : (s.getD []).Pairwise (fun a b => a.created_at ≤ b.created_at))
    (hlast : (s.getD []).getLast? = some t)
    (hcan : canExtendTail e.media_group_id (s.getD []) = true)
    (hexp : expired now cfg.photo_ttl t = true) :
    handle_photo cfg e now s = none := by
  have hle := created_le_getLast (s.getD []) t hsort hlast
  unfold handle_photo
  rw [hauth]
  simp only [Bool.false_eq_true, if_false]
  unfold appendPhoto
  rw [if_pos hcan]
  obtain ⟨ys, hys⟩ := List.getLast?_eq_some_iff.mp hlast
  rw [hys, extendLast_concat]
  have hne : ys ++ [(⟨t.media_group_id, t.file_ids ++ [e.file_id],
      t.message_ids ++ [e.message_id], t.created_at⟩ : PhotoGroup)] ≠ [] := by
    simp
  rw [cleanup_some cfg.photo_ttl now _ hne]
  rw [if_pos]
  rw [List.dropWhile_eq_nil_iff]
  intro x hx
  rcases List.mem_append.mp hx with hxy | hxt
  · refine expired_of_le now cfg.photo_ttl x t ?_ hexp
    refine hle x ?_
    rw [hys]
    exact List.mem_append_left _ hxy
  · rw [List.mem_singleton] at hxt
    subst hxt
    exact expired_of_le now cfg.photo_ttl _ t (le_refl _) hexp

/-- Witness for C10: a photo extending a 700-second-old tail batch under a
600-second TTL leaves the key deregistered. -/
theorem expired_tail_extension_evicted_witness :
    handle_photo ⟨none, 600, true, true⟩ ⟨none, some "g1", "P2", 11⟩ 700
      (some [⟨some "g1", ["P1"], [10], 0⟩]) = none :=
  expired_tail_extension_evicted ⟨none, 600, true, true⟩
    ⟨none, some "g1", "P2", 11⟩ 700 (some [⟨some "g1", ["P1"], [10], 0⟩])
    ⟨some "g1", ["P1"], [10], 0⟩ rfl (by simp) rfl (by decide) (by decide)

/-- Witness for C6 at spec Scenario E: owner 1 configured, events from
sender 2 leave the store untouched and emit nothing. -/
theorem authorization_filter_witness :
    handle_photo ⟨some 1, 600, true, true⟩ ⟨some 2, none, "F", 5⟩ 0
        (some [⟨none, ["F0"], [1], 0⟩])
      = some [⟨none, ["F0"], [1], 0⟩]
    ∧ handle_document ⟨some 1, 600, true, true⟩ (fun _ => false)
        ⟨some 2, some "part.zip", 6⟩ 0 (some [⟨none, ["F0"], [1], 0⟩])
      = (some [⟨none, ["F0"], [1], 0⟩], []) :=
  ⟨(authorization_filter ⟨some 1, 600, true, true⟩ (fun _ => false)
      ⟨some 2, none, "F", 5⟩ ⟨some 2, some "part.zip", 6⟩ 0
      (some [⟨none, ["F0"], [1], 0⟩]) (some 1) (some 2)).2.1 (by decide),
   (authorization_filter ⟨some 1, 600, true, true⟩ (fun _ => false)
      ⟨some 2, none, "F", 5⟩ ⟨some 2, some "part.zip", 6⟩ 0
      (some [⟨none, ["F0"], [1], 0⟩]) (some 1) (some 2)).2.2 (by decide)⟩
